import Mathlib

/-!
Shallow embedding of the reporting aggregation logic of
src/src/components/Reports.tsx (nightclub management system).

Modelling conventions:
* JavaScript numbers that hold money amounts, prices and quantities are
  modelled as rationals.
* ISO date strings compared at day granularity (the source always windows
  timestamps with [dateStr, dateStr + "T23:59:59"]) are modelled as natural
  day indices: one natural number per calendar day, ordered like the dates.
* The `items` column is a JSON text field.  JSON.parse(t.items OR-ELSE
  literal-empty-array) either yields a list of item lines, or - for a falsy
  (missing/empty) field - the empty list, or throws.  This is modelled by the
  inductive `Payload` below together with `parsePayload`; a thrown exception
  is `Option.none`, and exception propagation through the surrounding
  try/catch is modelled with `Option`.
* JavaScript object accumulation (counts[k] = (counts[k] or default) + x)
  followed by Object.entries is modelled by `groupBy`: an association list in
  first-encountered key order, accumulating with +.
* Array.prototype.sort with the numeric comparators used in the source
  (b.revenue - a.revenue etc.) is a stable descending sort; it is modelled by
  the stable insertion sort `sortDesc`.
-/

namespace NightclubReports

/-- One item line inside the `items` JSON of a transaction
(fields as stored by the billing flow: name, price, quantity). -/
structure Item where
  name : String
  price : ℚ
  quantity : ℚ
deriving DecidableEq

/-- The raw `items` text field of a transaction, as seen by
JSON.parse(t.items OR-ELSE the literal empty array): `empty` is a
falsy (missing or empty) field, `wellFormed` parses to a list of item
lines, `malformed` is any payload on which parsing or iteration throws. -/
inductive Payload where
  | empty : Payload
  | wellFormed (items : List Item) : Payload
  | malformed : Payload
deriving DecidableEq

/-- JSON.parse(t.items OR-ELSE the literal empty array): a falsy field
parses to the empty list, a malformed field throws (`none`). -/
def parsePayload : Payload → Option (List Item)
  | Payload.empty => some []
  | Payload.wellFormed items => some items
  | Payload.malformed => none

/-- The Transaction record of Reports.tsx (transactionDate at day
granularity, isRefund a numeric 0/1 flag as in the source). -/
structure Transaction where
  id : String
  memberName : String
  membershipType : String
  items : Payload
  originalAmount : ℚ
  discountAmount : ℚ
  finalAmount : ℚ
  paymentMethod : String
  transactionDate : ℕ
  cashierName : String
  isRefund : ℕ
  refundReason : Option String
deriving DecidableEq

/-- A check-in event (only its day matters to the aggregation). -/
structure CheckIn where
  checkInTime : ℕ
deriving DecidableEq

/-- An entry of DailyReport.topItems. -/
structure TopItem where
  item : String
  quantity : ℚ
  revenue : ℚ
deriving DecidableEq

/-- An entry of DailyReport.paymentMethods. -/
structure PayEntry where
  method : String
  amount : ℚ
  count : ℕ
deriving DecidableEq

/-- The DailyReport record of Reports.tsx. -/
structure DailyReport where
  date : ℕ
  totalSales : ℚ
  totalRefunds : ℚ
  netRevenue : ℚ
  transactionCount : ℕ
  memberCheckIns : ℕ
  topItems : List TopItem
  paymentMethods : List PayEntry
deriving DecidableEq

/-- The summary stats record set by calculateStats. -/
structure SummaryStats where
  totalSales : ℚ
  totalRefunds : ℚ
  netRevenue : ℚ
  totalTransactions : ℕ
  averageTransaction : ℚ
  topMembershipType : String
  topPaymentMethod : String
deriving DecidableEq

/-- One step of JavaScript dictionary accumulation:
if the key of `x` is absent, append a fresh entry `m x`;
otherwise add `m x` into the existing entry. -/
def groupAcc (key : α → String) (m : α → β) [Add β]
    (acc : List (String × β)) (x : α) : List (String × β) :=
  if key x ∈ acc.map Prod.fst then
    acc.map (fun e => if e.1 = key x then (e.1, e.2 + m x) else e)
  else
    acc ++ [(key x, m x)]

/-- JavaScript dictionary accumulation over a whole list followed by
Object.entries: association list in first-encountered key order. -/
def groupBy (key : α → String) (m : α → β) [Add β]
    (l : List α) : List (String × β) :=
  l.foldl (groupAcc key m) []

/-- Insert `x` into a descending-sorted list, after every element whose
key is at least the key of `x` (this is what makes the sort stable). -/
def insDesc (k : α → ℚ) (x : α) : List α → List α
  | [] => [x]
  | y :: ys => if k y < k x then x :: y :: ys else y :: insDesc k x ys

/-- Stable sort, descending by the rational key `k`:
Array.prototype.sort with comparator (a, b) => k b - k a. -/
def sortDesc (k : α → ℚ) (l : List α) : List α :=
  l.foldl (fun acc x => insDesc k x acc) []

/-- One step of scanning for the first element attaining the maximal key:
keep the current best unless the new element is strictly greater. -/
def fmStep (k : α → ℚ) (acc : Option α) (x : α) : Option α :=
  match acc with
  | none => some x
  | some m => if k m < k x then some x else some m

/-- The first element of `l` attaining the maximal key (ties broken in
favor of the earliest element); `none` only for the empty list. -/
def firstMax (k : α → ℚ) (l : List α) : Option α :=
  l.foldl (fmStep k) none

/-- The key selection sorted-entries[0]?.[0] OR-ELSE the string None of
calculateStats: sort entries descending by accumulated value and take the
first key; both a missing first entry (no transactions) and an empty-string
key (falsy in JavaScript) fall back to the literal string None. -/
def topKey (entries : List (String × ℚ)) : String :=
  match sortDesc (fun e => e.2) entries with
  | [] => "None"
  | e :: _ => if e.1 = "" then "None" else e.1

/-- The in-memory filter step of loadTransactions (lines 130-141):
an equality filter on membershipType when that filter is not the string all,
then an equality filter on paymentMethod when that one is not the string
all.  The date windowing happens in the database query, before this step. -/
def filterTransactions (mt pm : String) (txs : List Transaction) :
    List Transaction :=
  let f1 := if mt ≠ "all" then
      txs.filter (fun t => t.membershipType = mt)
    else txs
  if pm ≠ "all" then f1.filter (fun t => t.paymentMethod = pm) else f1

/-- calculateStats (lines 247-280) as a pure function of the transaction
list it aggregates. -/
def calculateStats (txs : List Transaction) : SummaryStats :=
  let sales := txs.filter (fun t => t.isRefund = 0)
  let refunds := txs.filter (fun t => t.isRefund = 1)
  let totalSales := (sales.map Transaction.finalAmount).sum
  let totalRefunds := (refunds.map Transaction.finalAmount).sum
  let netRevenue := totalSales - totalRefunds
  let membershipCounts :=
    groupBy (fun t => t.membershipType) (fun t => t.finalAmount) txs
  let paymentCounts :=
    groupBy (fun t => t.paymentMethod) (fun t => t.finalAmount) txs
  { totalSales := totalSales
    totalRefunds := totalRefunds
    netRevenue := netRevenue
    totalTransactions := txs.length
    averageTransaction :=
      if 0 < txs.length then netRevenue / (txs.length : ℚ) else 0
    topMembershipType := topKey membershipCounts
    topPaymentMethod := topKey paymentCounts }

/-- Run a fallible step over every element, collecting the results;
the first failure aborts the whole computation (exception propagation). -/
def collectSome (f : α → Option β) : List α → Option (List β)
  | [] => some []
  | x :: xs =>
    (f x).bind (fun y => (collectSome f xs).map (fun ys => y :: ys))

/-- The loop body of loadDailyReports (lines 166-239) for one day `d`,
given that day already-windowed transactions and the count of that day
check-ins.  Parsing the items of a sale can throw, which aborts the build,
hence the Option result. -/
def dayReport (d : ℕ) (dayTx : List Transaction) (checkInCount : ℕ) :
    Option DailyReport :=
  let sales := dayTx.filter (fun t => t.isRefund = 0)
  let refunds := dayTx.filter (fun t => t.isRefund = 1)
  (collectSome (fun t => parsePayload t.items) sales).map (fun salesItems =>
    let lines := salesItems.flatten
    let itemCounts :=
      groupBy (fun l => l.name)
        (fun l => ((l.quantity, l.price * l.quantity) : ℚ × ℚ)) lines
    let topItems :=
      (sortDesc TopItem.revenue
        (itemCounts.map (fun e => TopItem.mk e.1 e.2.1 e.2.2))).take 5
    let paymentCounts :=
      groupBy (fun t => t.paymentMethod)
        (fun t => ((t.finalAmount, 1) : ℚ × ℕ)) dayTx
    let paymentMethods :=
      sortDesc PayEntry.amount
        (paymentCounts.map (fun e => PayEntry.mk e.1 e.2.1 e.2.2))
    { date := d
      totalSales := (sales.map Transaction.finalAmount).sum
      totalRefunds := (refunds.map Transaction.finalAmount).sum
      netRevenue := (sales.map Transaction.finalAmount).sum -
        (refunds.map Transaction.finalAmount).sum
      transactionCount := dayTx.length
      memberCheckIns := checkInCount
      topItems := topItems
      paymentMethods := paymentMethods })

/-- loadDailyReports (lines 159-245): one report per calendar day of the
inclusive range, built in ascending day order and reversed at the end
(most recent first).  A parse exception anywhere aborts the whole build
(the try/catch wraps the entire loop), yielding `none`. -/
def buildDailyReports (txs : List Transaction) (cks : List CheckIn)
    (startDate endDate : ℕ) : Option (List DailyReport) :=
  (collectSome
    (fun d => dayReport d
      (txs.filter (fun t => t.transactionDate = d))
      ((cks.filter (fun c => c.checkInTime = d)).length))
    (List.range' startDate (endDate + 1 - startDate))).map List.reverse

/-- A CSV cell value: the source only distinguishes string values (quoted
when they contain the delimiter) from everything else (stringified as-is;
the concrete JavaScript number formatting is abstracted by a fixed
injective rendering). -/
inductive Value where
  | str (s : String) : Value
  | num (q : ℚ) : Value
deriving DecidableEq

/-- Stringification of one cell (lines 294-296): a string containing the
delimiter is wrapped in double quotes, any other value is rendered as-is. -/
def renderValue : Value → String
  | Value.str s => if s.data.contains ',' then "\x22" ++ s ++ "\x22" else s
  | Value.num q =>
    if q.den = 1 then toString q.num
    else toString q.num ++ "/" ++ toString q.den

/-- exportToCSV (lines 282-299) restricted to its data-to-table part: on an
empty record list it returns the no-data signal (`none`, surfaced as a
toast) and produces no table; otherwise the header row is built from the
field names of the first record and every record becomes one
comma-joined row. -/
def exportToCSV (data : List (List (String × Value))) :
    Option (String × List String) :=
  match data with
  | [] => none
  | d :: ds =>
    some (String.intercalate "," (d.map Prod.fst),
      (d :: ds).map (fun row =>
        String.intercalate "," (row.map (fun p => renderValue p.2))))

/-- The all-zero report produced for a day without transactions or
check-ins. -/
def zeroReport (d : ℕ) : DailyReport :=
  { date := d
    totalSales := 0
    totalRefunds := 0
    netRevenue := 0
    transactionCount := 0
    memberCheckIns := 0
    topItems := []
    paymentMethods := [] }

/-- One step of first-occurrence key deduplication. -/
def dedupStep (acc : List String) (k : String) : List String :=
  if k ∈ acc then acc else acc ++ [k]

/-- First-occurrence deduplication of a key list, preserving order:
the key order of Object.entries of an accumulation dictionary. -/
def dedupKeys (ks : List String) : List String :=
  ks.foldl dedupStep []

/-- The total accumulated value of a key: the sum of the measure `m` over
the elements of `l` carrying that key. -/
def keySum (key : α → String) (m : α → β) [AddCommMonoid β]
    (k : String) (l : List α) : β :=
  ((l.filter (fun x => key x = k)).map m).sum

/-- Test fixture: a transaction with the given membership type, payment
method, final amount, day, refund flag and item payload. -/
def mkTx (mt pm : String) (fa : ℚ) (day : ℕ) (refund : ℕ) (pl : Payload) :
    Transaction :=
  { id := "t", memberName := "m", membershipType := mt, items := pl,
    originalAmount := fa, discountAmount := 0, finalAmount := fa,
    paymentMethod := pm, transactionDate := day, cashierName := "c",
    isRefund := refund, refundReason := none }

/-- The worked example of the specification: a 25 sale and a 10 refund on
the same day. -/
def exTxs : List Transaction :=
  [mkTx "Gold" "cash" 25 0 0 Payload.empty,
   mkTx "VIP" "card" 10 0 1 Payload.empty]

/-- The worked example of the specification: two same-day sales of Beer at
price 8, quantities 2 and 1. -/
def beerTxs : List Transaction :=
  [mkTx "Gold" "cash" 16 0 0 (Payload.wellFormed [Item.mk "Beer" 8 2]),
   mkTx "VIP" "card" 8 0 0 (Payload.wellFormed [Item.mk "Beer" 8 1])]

/-- A sale transaction on day 0 whose item payload is unparseable. -/
def malformedTx : Transaction :=
  mkTx "Gold" "cash" 5 0 0 Payload.malformed

/-- The daily report the build produces for `beerTxs` on day 0. -/
def beerReport : DailyReport :=
  { date := 0
    totalSales := 24
    totalRefunds := 0
    netRevenue := 24
    transactionCount := 2
    memberCheckIns := 0
    topItems := [TopItem.mk "Beer" 3 24]
    paymentMethods := [PayEntry.mk "cash" 16 1, PayEntry.mk "card" 8 1] }

/-- Fixture for the payment-method invariant: a cash sale of 10 and a card
refund of 4 on day 0. -/
def payTxs : List Transaction :=
  [mkTx "Gold" "cash" 10 0 0 Payload.empty,
   mkTx "VIP" "card" 4 0 1 Payload.empty]

/-- The daily report the build produces for `payTxs` on day 0. -/
def payReport : DailyReport :=
  { date := 0
    totalSales := 10
    totalRefunds := 4
    netRevenue := 6
    transactionCount := 2
    memberCheckIns := 0
    topItems := []
    paymentMethods := [PayEntry.mk "cash" 10 1, PayEntry.mk "card" 4 1] }

/-- A transaction whose membership type is the empty string (a legal
string key, but falsy in JavaScript). -/
def emptyKeyTx : Transaction :=
  mkTx "" "cash" 5 0 0 Payload.empty

/-! ### Lemmas about `collectSome` -/

theorem collectSome_cons_eq_some {f : α → Option β} {x : α} {xs : List α}
    {ys : List β} :
    collectSome f (x :: xs) = some ys ↔
      ∃ y zs, f x = some y ∧ collectSome f xs = some zs ∧ ys = y :: zs := by
  simp only [collectSome, Option.bind_eq_some, Option.map_eq_some']
  constructor
  · rintro ⟨y, hy, zs, hzs, rfl⟩
    exact ⟨y, zs, hy, hzs, rfl⟩
  · rintro ⟨y, zs, hy, hzs, rfl⟩
    exact ⟨y, hy, zs, hzs, rfl⟩

theorem collectSome_length {f : α → Option β} :
    ∀ {l : List α} {ys : List β}, collectSome f l = some ys →
      ys.length = l.length := by
  intro l
  induction l with
  | nil =>
    intro ys h
    simp only [collectSome, Option.some_inj] at h
    subst h; rfl
  | cons x xs ih =>
    intro ys h
    obtain ⟨y, zs, _, hzs, rfl⟩ := collectSome_cons_eq_some.mp h
    simp [ih hzs]

theorem collectSome_map {f : α → Option β} (g : β → γ) (g2 : α → γ)
    (hfg : ∀ x y, f x = some y → g y = g2 x) :
    ∀ {l : List α} {ys : List β}, collectSome f l = some ys →
      ys.map g = l.map g2 := by
  intro l
  induction l with
  | nil =>
    intro ys h
    simp only [collectSome, Option.some_inj] at h
    subst h; rfl
  | cons x xs ih =>
    intro ys h
    obtain ⟨y, zs, hy, hzs, rfl⟩ := collectSome_cons_eq_some.mp h
    simp [ih hzs, hfg x y hy]

theorem collectSome_mem {f : α → Option β} {y : β} :
    ∀ {l : List α} {ys : List β} {x : α}, collectSome f l = some ys →
      x ∈ l → f x = some y → y ∈ ys := by
  intro l
  induction l with
  | nil => intro ys x _ hx; exact absurd hx (List.not_mem_nil x)
  | cons a xs ih =>
    intro ys x h hx hfx
    obtain ⟨y0, zs, hy0, hzs, rfl⟩ := collectSome_cons_eq_some.mp h
    rcases List.mem_cons.mp hx with rfl | hx2
    · rw [hy0] at hfx
      exact (Option.some_inj.mp hfx) ▸ List.mem_cons_self y0 zs
    · exact List.mem_cons_of_mem y0 (ih hzs hx2 hfx)

theorem collectSome_none {f : α → Option β} :
    ∀ {l : List α} {x : α}, x ∈ l → f x = none → collectSome f l = none := by
  intro l
  induction l with
  | nil => intro x hx; exact absurd hx (List.not_mem_nil x)
  | cons a xs ih =>
    intro x hx hfx
    rcases List.mem_cons.mp hx with rfl | hx2
    · simp [collectSome, hfx]
    · simp [collectSome, ih hx2 hfx]

theorem collectSome_isSome {f : α → Option β} :
    ∀ {l : List α}, (∀ x ∈ l, (f x).isSome) → (collectSome f l).isSome := by
  intro l
  induction l with
  | nil => intro _; simp [collectSome]
  | cons a xs ih =>
    intro h
    obtain ⟨y, hy⟩ := Option.isSome_iff_exists.mp (h a (List.mem_cons_self a xs))
    obtain ⟨zs, hzs⟩ := Option.isSome_iff_exists.mp
      (ih (fun x hx => h x (List.mem_cons_of_mem a hx)))
    simp [collectSome, hy, hzs]

theorem collectSome_mem_rev {f : α → Option β} {y : β} :
    ∀ {l : List α} {ys : List β}, collectSome f l = some ys → y ∈ ys →
      ∃ x ∈ l, f x = some y := by
  intro l
  induction l with
  | nil =>
    intro ys h hy
    simp only [collectSome, Option.some_inj] at h
    subst h
    exact absurd hy (List.not_mem_nil y)
  | cons a xs ih =>
    intro ys h hy
    obtain ⟨y0, zs, hy0, hzs, rfl⟩ := collectSome_cons_eq_some.mp h
    rcases List.mem_cons.mp hy with rfl | hy2
    · exact ⟨a, List.mem_cons_self a xs, hy0⟩
    · obtain ⟨x, hx, hfx⟩ := ih hzs hy2
      exact ⟨x, List.mem_cons_of_mem a hx, hfx⟩

/-! ### Lemmas about `dedupKeys` -/

theorem dedupAux_mem :
    ∀ (ks acc : List String) (k : String),
      k ∈ ks.foldl dedupStep acc ↔ k ∈ acc ∨ k ∈ ks := by
  intro ks
  induction ks with
  | nil => intro acc k; simp
  | cons a ks ih =>
    intro acc k
    rw [List.foldl_cons, ih]
    unfold dedupStep
    by_cases ha : a ∈ acc
    · rw [if_pos ha]
      constructor
      · rintro (h | h)
        · exact Or.inl h
        · exact Or.inr (List.mem_cons_of_mem a h)
      · rintro (h | h)
        · exact Or.inl h
        · rcases List.mem_cons.mp h with rfl | h2
          · exact Or.inl ha
          · exact Or.inr h2
    · rw [if_neg ha]
      simp only [List.mem_append, List.mem_singleton, List.mem_cons]
      tauto

theorem dedupAux_nodup :
    ∀ (ks acc : List String), acc.Nodup → (ks.foldl dedupStep acc).Nodup := by
  intro ks
  induction ks with
  | nil => intro acc h; exact h
  | cons a ks ih =>
    intro acc h
    rw [List.foldl_cons]
    apply ih
    unfold dedupStep
    by_cases ha : a ∈ acc
    · rwa [if_pos ha]
    · rw [if_neg ha]
      simpa [List.nodup_append] using ⟨h, ha⟩

theorem dedupKeys_mem {ks : List String} {k : String} :
    k ∈ dedupKeys ks ↔ k ∈ ks := by
  rw [dedupKeys, dedupAux_mem]
  simp

theorem dedupKeys_nodup (ks : List String) : (dedupKeys ks).Nodup :=
  dedupAux_nodup ks [] List.nodup_nil

theorem dedupKeys_ne_nil {ks : List String} (h : ks ≠ []) :
    dedupKeys ks ≠ [] := by
  match ks, h with
  | a :: ks, _ =>
    intro hcon
    have : a ∈ dedupKeys (a :: ks) :=
      dedupKeys_mem.mpr (List.mem_cons_self a ks)
    rw [hcon] at this
    exact absurd this (List.not_mem_nil a)

theorem dedupKeys_concat (ks : List String) (k : String) :
    dedupKeys (ks ++ [k]) = dedupStep (dedupKeys ks) k := by
  rw [dedupKeys, dedupKeys, List.foldl_append]
  rfl

/-! ### Lemmas about `groupBy` -/

theorem groupBy_concat {key : α → String} {m : α → β} [Add β]
    (l : List α) (x : α) :
    groupBy key m (l ++ [x]) = groupAcc key m (groupBy key m l) x := by
  rw [groupBy, groupBy, List.foldl_append]
  rfl

theorem groupBy_keys (key : α → String) (m : α → β) [Add β] :
    ∀ l : List α, (groupBy key m l).map Prod.fst = dedupKeys (l.map key) := by
  intro l
  induction l using List.reverseRecOn with
  | nil => rfl
  | append_singleton l x ih =>
    rw [groupBy_concat, List.map_append, List.map_singleton, dedupKeys_concat]
    unfold groupAcc dedupStep
    by_cases hmem : key x ∈ (groupBy key m l).map Prod.fst
    · rw [if_pos hmem, if_pos (ih ▸ hmem)]
      rw [List.map_map, ← ih]
      apply List.map_congr_left
      intro e _
      by_cases he : e.1 = key x <;> simp [he]
    · rw [if_neg hmem, if_neg (fun hc => hmem (ih ▸ hc))]
      rw [List.map_append, ih]
      rfl

theorem groupBy_keys_nodup {key : α → String} {m : α → β} [Add β]
    (l : List α) : ((groupBy key m l).map Prod.fst).Nodup := by
  rw [groupBy_keys]
  exact dedupKeys_nodup _

theorem keySum_concat {key : α → String} {m : α → β} [AddCommMonoid β]
    (k : String) (l : List α) (x : α) :
    keySum key m k (l ++ [x]) =
      if key x = k then keySum key m k l + m x else keySum key m k l := by
  unfold keySum
  rw [List.filter_append]
  by_cases h : key x = k
  · simp [h]
  · simp [h]

theorem groupBy_sums (key : α → String) (m : α → β) [AddCommMonoid β] :
    ∀ (l : List α), ∀ e ∈ groupBy key m l, e.2 = keySum key m e.1 l := by
  intro l
  induction l using List.reverseRecOn with
  | nil => intro e he; exact absurd he (List.not_mem_nil e)
  | append_singleton l x ih =>
    intro e he
    rw [groupBy_concat] at he
    unfold groupAcc at he
    by_cases hmem : key x ∈ (groupBy key m l).map Prod.fst
    · rw [if_pos hmem] at he
      obtain ⟨e0, he0, rfl⟩ := List.mem_map.mp he
      by_cases hk : e0.1 = key x
      · rw [if_pos hk]
        show e0.2 + m x = keySum key m e0.1 (l ++ [x])
        rw [keySum_concat, if_pos hk.symm, ← ih e0 he0]
      · rw [if_neg hk]
        rw [keySum_concat, if_neg (fun hc => hk hc.symm)]
        exact ih e0 he0
    · rw [if_neg hmem] at he
      rcases List.mem_append.mp he with he2 | he2
      · have hk : e.1 ≠ key x := by
          intro hc
          exact hmem (hc ▸ List.mem_map_of_mem Prod.fst he2)
        rw [keySum_concat, if_neg (fun hc => hk hc.symm)]
        exact ih e he2
      · have he3 : e = (key x, m x) := List.mem_singleton.mp he2
        subst he3
        rw [keySum_concat, if_pos rfl]
        have hnil : keySum key m (key x) l = 0 := by
          unfold keySum
          have : l.filter (fun y => key y = key x) = [] := by
            rw [List.filter_eq_nil_iff]
            intro a ha
            simp only [decide_eq_true_eq]
            intro hc
            apply hmem
            rw [groupBy_keys, dedupKeys_mem]
            exact hc ▸ List.mem_map_of_mem key ha
          rw [this]
          rfl
        rw [hnil, zero_add]

theorem update_snd_sum [AddCommMonoid β] {k : String} {v : β} :
    ∀ (acc : List (String × β)), (acc.map Prod.fst).Nodup →
      k ∈ acc.map Prod.fst →
      ((acc.map (fun e => if e.1 = k then (e.1, e.2 + v) else e)).map
        Prod.snd).sum = (acc.map Prod.snd).sum + v := by
  intro acc
  induction acc with
  | nil => intro _ hk; exact absurd hk (List.not_mem_nil k)
  | cons e acc ih =>
    intro hnd hk
    rw [List.map_cons, List.nodup_cons] at hnd
    by_cases he : e.1 = k
    · rw [List.map_cons, if_pos he]
      have hrest : acc.map (fun e => if e.1 = k then (e.1, e.2 + v) else e)
          = acc.map id := by
        apply List.map_congr_left
        intro a ha
        have : a.1 ≠ k := by
          intro hc
          exact hnd.1 (he ▸ hc ▸ List.mem_map_of_mem Prod.fst ha)
        rw [if_neg this]
        rfl
      rw [hrest, List.map_id]
      simp only [List.map_cons, List.sum_cons]
      rw [add_assoc, add_comm v, ← add_assoc]
    · rw [List.map_cons, if_neg he]
      have hk2 : k ∈ acc.map Prod.fst := by
        rcases List.mem_cons.mp hk with hc | hc
        · exact absurd hc.symm he
        · exact hc
      simp only [List.map_cons, List.sum_cons]
      rw [ih hnd.2 hk2, add_assoc]

theorem groupBy_sum_snd (key : α → String) (m : α → β) [AddCommMonoid β] :
    ∀ l : List α,
      ((groupBy key m l).map Prod.snd).sum = (l.map m).sum := by
  intro l
  induction l using List.reverseRecOn with
  | nil => rfl
  | append_singleton l x ih =>
    rw [groupBy_concat, List.map_append, List.map_singleton, List.sum_append,
      List.sum_singleton]
    unfold groupAcc
    by_cases hmem : key x ∈ (groupBy key m l).map Prod.fst
    · rw [if_pos hmem, update_snd_sum _ (groupBy_keys_nodup l) hmem, ih]
    · rw [if_neg hmem, List.map_append, List.sum_append, ih]
      simp

/-! ### Lemmas about `sortDesc` and `firstMax` -/

theorem insDesc_perm (k : α → ℚ) (x : α) :
    ∀ l : List α, (insDesc k x l).Perm (x :: l) := by
  intro l
  induction l with
  | nil => exact List.Perm.refl _
  | cons y ys ih =>
    rw [insDesc]
    by_cases h : k y < k x
    · rw [if_pos h]
    · rw [if_neg h]
      exact (List.Perm.cons y ih).trans (List.Perm.swap x y ys)

theorem sortAux_perm (k : α → ℚ) :
    ∀ (l acc : List α),
      (l.foldl (fun a x => insDesc k x a) acc).Perm (l ++ acc) := by
  intro l
  induction l with
  | nil => intro acc; simp
  | cons x xs ih =>
    intro acc
    rw [List.foldl_cons]
    refine (ih (insDesc k x acc)).trans ?_
    refine (List.Perm.append_left xs (insDesc_perm k x acc)).trans ?_
    exact List.perm_middle

theorem sortDesc_perm (k : α → ℚ) (l : List α) :
    (sortDesc k l).Perm l := by
  refine (sortAux_perm k l []).trans ?_
  simp

theorem insDesc_sorted {k : α → ℚ} {l : List α}
    (h : List.Pairwise (fun a b => k b ≤ k a) l) (x : α) :
    List.Pairwise (fun a b => k b ≤ k a) (insDesc k x l) := by
  induction l with
  | nil => simp [insDesc]
  | cons y ys ih =>
    rw [List.pairwise_cons] at h
    rw [insDesc]
    by_cases hlt : k y < k x
    · rw [if_pos hlt]
      rw [List.pairwise_cons]
      constructor
      · intro z hz
        rcases List.mem_cons.mp hz with rfl | hz2
        · exact le_of_lt hlt
        · exact le_trans (h.1 z hz2) (le_of_lt hlt)
      · exact List.pairwise_cons.mpr h
    · rw [if_neg hlt]
      rw [List.pairwise_cons]
      constructor
      · intro z hz
        rcases (insDesc_perm k x ys).mem_iff.mp hz with hz2
        rcases List.mem_cons.mp hz2 with rfl | hz3
        · exact not_lt.mp hlt
        · exact h.1 z hz3
      · exact ih h.2

theorem sortAux_sorted (k : α → ℚ) :
    ∀ (l acc : List α), List.Pairwise (fun a b => k b ≤ k a) acc →
      List.Pairwise (fun a b => k b ≤ k a)
        (l.foldl (fun a x => insDesc k x a) acc) := by
  intro l
  induction l with
  | nil => intro acc h; exact h
  | cons x xs ih =>
    intro acc h
    rw [List.foldl_cons]
    exact ih _ (insDesc_sorted h x)

theorem sortDesc_sorted (k : α → ℚ) (l : List α) :
    List.Pairwise (fun a b => k b ≤ k a) (sortDesc k l) :=
  sortAux_sorted k l [] List.Pairwise.nil

theorem sortDesc_concat (k : α → ℚ) (l : List α) (x : α) :
    sortDesc k (l ++ [x]) = insDesc k x (sortDesc k l) := by
  rw [sortDesc, sortDesc, List.foldl_append]
  rfl

theorem firstMax_concat (k : α → ℚ) (l : List α) (x : α) :
    firstMax k (l ++ [x]) = fmStep k (firstMax k l) x := by
  rw [firstMax, firstMax, List.foldl_append]
  rfl

theorem fmStep_ne_none (k : α → ℚ) (acc : Option α) (x : α) :
    fmStep k acc x ≠ none := by
  match acc with
  | none => simp [fmStep]
  | some m =>
    rw [fmStep]
    by_cases h : k m < k x
    · simp [h]
    · simp [h]

theorem firstMax_eq_none_iff {k : α → ℚ} {l : List α} :
    firstMax k l = none ↔ l = [] := by
  constructor
  · intro h
    match l with
    | [] => rfl
    | a :: xs =>
      exfalso
      have haux : ∀ (ys : List α) (acc : Option α), acc ≠ none →
          ys.foldl (fmStep k) acc ≠ none := by
        intro ys
        induction ys with
        | nil => intro acc hacc; exact hacc
        | cons b bs ih =>
          intro acc _
          rw [List.foldl_cons]
          exact ih _ (fmStep_ne_none k acc b)
      rw [firstMax, List.foldl_cons] at h
      exact haux xs (fmStep k none a) (fmStep_ne_none k none a) h
  · rintro rfl
    rfl

theorem head?_sortDesc (k : α → ℚ) :
    ∀ l : List α, (sortDesc k l).head? = firstMax k l := by
  intro l
  induction l using List.reverseRecOn with
  | nil => rfl
  | append_singleton l x ih =>
    rw [sortDesc_concat, firstMax_concat]
    cases hs : sortDesc k l with
    | nil =>
      have hfm : firstMax k l = none := by rw [← ih, hs]; rfl
      rw [hfm]
      rfl
    | cons y ys =>
      have hfm : firstMax k l = some y := by rw [← ih, hs]; rfl
      rw [hfm]
      rw [insDesc, fmStep]
      by_cases h : k y < k x
      · rw [if_pos h, if_pos h]
        rfl
      · rw [if_neg h, if_neg h]
        rfl

theorem firstMax_mem {k : α → ℚ} {l : List α} {m : α}
    (h : firstMax k l = some m) : m ∈ l := by
  have haux : ∀ (ys : List α) (acc : Option α),
      ys.foldl (fmStep k) acc = some m → acc = some m ∨ m ∈ ys := by
    intro ys
    induction ys with
    | nil => intro acc hacc; exact Or.inl hacc
    | cons b bs ih =>
      intro acc hacc
      rw [List.foldl_cons] at hacc
      rcases ih _ hacc with hstep | hmem
      · match acc, hstep with
        | none, hstep =>
          rw [fmStep] at hstep
          exact Or.inr (Option.some_inj.mp hstep ▸ List.mem_cons_self b bs)
        | some m0, hstep =>
          rw [fmStep] at hstep
          by_cases hlt : k m0 < k b
          · rw [if_pos hlt] at hstep
            exact Or.inr
              (Option.some_inj.mp hstep ▸ List.mem_cons_self b bs)
          · rw [if_neg hlt] at hstep
            exact Or.inl hstep
      · exact Or.inr (List.mem_cons_of_mem b hmem)
  rcases haux l none h with hacc | hmem
  · exact absurd hacc (by simp)
  · exact hmem

theorem filter_eq_nil_of_sorted_lt {k : α → ℚ} {y : α} {ys : List α}
    (h : List.Pairwise (fun a b => k b ≤ k a) (y :: ys)) {v : ℚ}
    (hv : k y < v) :
    (y :: ys).filter (fun a => k a = v) = [] := by
  rw [List.filter_eq_nil_iff]
  intro a ha
  simp only [decide_eq_true_eq]
  intro hc
  rcases List.mem_cons.mp ha with rfl | ha2
  · exact absurd hc (ne_of_lt hv)
  · have : k a ≤ k y := (List.pairwise_cons.mp h).1 a ha2
    exact absurd hc (ne_of_lt (lt_of_le_of_lt this hv))

theorem insDesc_filter {k : α → ℚ} {l : List α}
    (h : List.Pairwise (fun a b => k b ≤ k a) l) (x : α) (v : ℚ) :
    (insDesc k x l).filter (fun a => k a = v) =
      if k x = v then l.filter (fun a => k a = v) ++ [x]
      else l.filter (fun a => k a = v) := by
  induction l with
  | nil =>
    rw [insDesc]
    by_cases hv : k x = v
    · simp [hv]
    · simp [hv]
  | cons y ys ih =>
    rw [insDesc]
    by_cases hlt : k y < k x
    · rw [if_pos hlt]
      by_cases hv : k x = v
      · rw [if_pos hv]
        have hnil : (y :: ys).filter (fun a => k a = v) = [] :=
          filter_eq_nil_of_sorted_lt h (hv ▸ hlt)
        rw [List.filter_cons_of_pos (by simp [hv]), hnil]
        rfl
      · rw [if_neg hv]
        rw [List.filter_cons_of_neg (by simp [hv])]
    · rw [if_neg hlt]
      have htail := (List.pairwise_cons.mp h).2
      by_cases hy : k y = v
      · rw [List.filter_cons_of_pos (by simp [hy]),
          List.filter_cons_of_pos (by simp [hy]), ih htail]
        by_cases hv : k x = v
        · rw [if_pos hv, if_pos hv]
          rfl
        · rw [if_neg hv, if_neg hv]
      · rw [List.filter_cons_of_neg (by simp [hy]),
          List.filter_cons_of_neg (by simp [hy]), ih htail]

theorem sortDesc_filter_stable (k : α → ℚ) (v : ℚ) :
    ∀ l : List α,
      (sortDesc k l).filter (fun a => k a = v) =
        l.filter (fun a => k a = v) := by
  intro l
  induction l using List.reverseRecOn with
  | nil => rfl
  | append_singleton l x ih =>
    rw [sortDesc_concat, insDesc_filter (sortDesc_sorted k l) x v,
      List.filter_append]
    by_cases hv : k x = v
    · rw [if_pos hv, ih, List.filter_cons_of_pos (by simp [hv])]
      rfl
    · rw [if_neg hv, ih, List.filter_cons_of_neg (by simp [hv])]
      simp

/-! ### Miscellaneous sum and partition lemmas -/

theorem pairSum_fst [AddCommMonoid M] [AddCommMonoid N] :
    ∀ l : List (M × N), l.sum.1 = (l.map Prod.fst).sum := by
  intro l
  induction l with
  | nil => rfl
  | cons p ps ih => simp [List.sum_cons, Prod.fst_add, ih]

theorem pairSum_snd [AddCommMonoid M] [AddCommMonoid N] :
    ∀ l : List (M × N), l.sum.2 = (l.map Prod.snd).sum := by
  intro l
  induction l with
  | nil => rfl
  | cons p ps ih => simp [List.sum_cons, Prod.snd_add, ih]

theorem sum_map_one : ∀ l : List α, (l.map (fun _ => (1 : ℕ))).sum = l.length := by
  intro l
  induction l with
  | nil => rfl
  | cons x xs ih => simp [ih]; omega

theorem groupBy_pair_count_sum (key : α → String) (fa : α → ℚ)
    (l : List α) :
    ((groupBy key (fun x => ((fa x, 1) : ℚ × ℕ)) l).map
      (fun e => e.2.2)).sum = l.length := by
  have h1 := groupBy_sum_snd key (fun x => ((fa x, 1) : ℚ × ℕ)) l
  have h2 := congrArg Prod.snd h1
  rw [pairSum_snd, pairSum_snd, List.map_map, List.map_map] at h2
  simp only [Function.comp_def] at h2
  rw [h2, sum_map_one]

theorem topKey_firstMax :
    ∀ entries : List (String × ℚ), entries ≠ [] →
      ∃ km, firstMax (fun e => e.2) entries = some km ∧
        (∀ e ∈ entries, e.2 ≤ km.2) ∧
        topKey entries = if km.1 = "" then "None" else km.1 := by
  intro entries hne
  cases hs : sortDesc (fun e => e.2) entries with
  | nil =>
    exfalso
    have hperm := sortDesc_perm (fun e => e.2) entries
    rw [hs] at hperm
    exact hne (hperm.symm.eq_nil)
  | cons y ys =>
    have hfm : firstMax (fun e => e.2) entries = some y := by
      rw [← head?_sortDesc, hs]
      rfl
    refine ⟨y, hfm, ?_, ?_⟩
    · intro e he
      have hmem : e ∈ y :: ys := by
        rw [← hs]
        exact ((sortDesc_perm (fun e => e.2) entries).mem_iff).mpr he
      have hsorted := sortDesc_sorted (fun e => e.2) entries
      rw [hs, List.pairwise_cons] at hsorted
      rcases List.mem_cons.mp hmem with rfl | hmem2
      · exact le_refl _
      · exact hsorted.1 e hmem2
    · unfold topKey
      rw [hs]

theorem refund_partition_length (txs : List Transaction)
    (h : ∀ t ∈ txs, t.isRefund = 0 ∨ t.isRefund = 1) :
    (txs.filter (fun t => t.isRefund = 0)).length +
      (txs.filter (fun t => t.isRefund = 1)).length = txs.length := by
  induction txs with
  | nil => rfl
  | cons t ts ih =>
    have hts := ih (fun a ha => h a (List.mem_cons_of_mem t ha))
    rcases h t (List.mem_cons_self t ts) with h0 | h1
    · rw [List.filter_cons_of_pos (by simp [h0]),
        List.filter_cons_of_neg (by simp [h0])]
      simp only [List.length_cons]
      omega
    · rw [List.filter_cons_of_neg (by simp [h1]),
        List.filter_cons_of_pos (by simp [h1])]
      simp only [List.length_cons]
      omega

/-! ### Structure lemmas about `dayReport` and `buildDailyReports` -/

theorem dayReport_eq_some {d : ℕ} {dayTx : List Transaction}
    {checkInCount : ℕ} {r : DailyReport}
    (h : dayReport d dayTx checkInCount = some r) :
    ∃ salesItems,
      collectSome (fun t => parsePayload t.items)
        (dayTx.filter (fun t => t.isRefund = 0)) = some salesItems ∧
      r.date = d ∧
      r.transactionCount = dayTx.length ∧
      r.topItems =
        (sortDesc TopItem.revenue
          ((groupBy (fun l => l.name)
            (fun l => ((l.quantity, l.price * l.quantity) : ℚ × ℚ))
            salesItems.flatten).map
              (fun e => TopItem.mk e.1 e.2.1 e.2.2))).take 5 ∧
      r.paymentMethods =
        sortDesc PayEntry.amount
          ((groupBy (fun t => t.paymentMethod)
            (fun t => ((t.finalAmount, 1) : ℚ × ℕ)) dayTx).map
              (fun e => PayEntry.mk e.1 e.2.1 e.2.2)) := by
  rw [dayReport, Option.map_eq_some'] at h
  obtain ⟨salesItems, hsi, hr⟩ := h
  subst hr
  exact ⟨salesItems, hsi, rfl, rfl, rfl, rfl⟩

theorem dayReport_date {d : ℕ} {dayTx : List Transaction}
    {checkInCount : ℕ} {r : DailyReport}
    (h : dayReport d dayTx checkInCount = some r) : r.date = d := by
  obtain ⟨_, _, hd, _⟩ := dayReport_eq_some h
  exact hd

theorem dayReport_empty (d : ℕ) : dayReport d [] 0 = some (zeroReport d) := by
  norm_num [dayReport, zeroReport, collectSome, groupBy, sortDesc]

theorem dayReport_isSome {d : ℕ} {dayTx : List Transaction}
    {checkInCount : ℕ}
    (h : ∀ t ∈ dayTx, (parsePayload t.items).isSome) :
    (dayReport d dayTx checkInCount).isSome := by
  rw [dayReport]
  obtain ⟨salesItems, hsi⟩ := Option.isSome_iff_exists.mp
    (collectSome_isSome (fun t ht =>
      h t (List.mem_filter.mp ht).1))
  rw [hsi]
  rfl

theorem dayReport_none {d : ℕ} {dayTx : List Transaction} {checkInCount : ℕ}
    (h : collectSome (fun t => parsePayload t.items)
      (dayTx.filter (fun t => t.isRefund = 0)) = none) :
    dayReport d dayTx checkInCount = none := by
  simp only [dayReport]
  rw [h]
  rfl

theorem buildDailyReports_none {txs : List Transaction} {cks : List CheckIn}
    {s e d : ℕ} (hd : d ∈ List.range' s (e + 1 - s))
    (h : dayReport d (txs.filter (fun t => t.transactionDate = d))
      ((cks.filter (fun c => c.checkInTime = d)).length) = none) :
    buildDailyReports txs cks s e = none := by
  rw [buildDailyReports]
  have hcs : collectSome
      (fun d => dayReport d (txs.filter (fun t => t.transactionDate = d))
        ((cks.filter (fun c => c.checkInTime = d)).length))
      (List.range' s (e + 1 - s)) = none :=
    collectSome_none hd h
  rw [hcs]
  rfl

theorem buildDailyReports_eq_some {txs : List Transaction}
    {cks : List CheckIn} {s e : ℕ} {reports : List DailyReport}
    (h : buildDailyReports txs cks s e = some reports) :
    ∃ ys, collectSome
        (fun d => dayReport d
          (txs.filter (fun t => t.transactionDate = d))
          ((cks.filter (fun c => c.checkInTime = d)).length))
        (List.range' s (e + 1 - s)) = some ys ∧
      reports = ys.reverse := by
  rw [buildDailyReports, Option.map_eq_some'] at h
  obtain ⟨ys, hys, hr⟩ := h
  exact ⟨ys, hys, hr.symm⟩

theorem buildDailyReports_report_day {txs : List Transaction}
    {cks : List CheckIn} {s e : ℕ} {reports : List DailyReport}
    (h : buildDailyReports txs cks s e = some reports) :
    ∀ r ∈ reports, ∃ d, s ≤ d ∧ d ≤ e ∧
      dayReport d (txs.filter (fun t => t.transactionDate = d))
        ((cks.filter (fun c => c.checkInTime = d)).length) = some r := by
  intro r hr
  obtain ⟨ys, hys, hrev⟩ := buildDailyReports_eq_some h
  have hrys : r ∈ ys := List.mem_reverse.mp (hrev ▸ hr)
  obtain ⟨d, hd, hday⟩ := collectSome_mem_rev hys hrys
  have hrange := List.mem_range'_1.mp hd
  exact ⟨d, hrange.1, by omega, hday⟩

/-! ### Claim theorems -/

/-- C1: calculateStats splits the transactions by the isRefund flag into
sales (flag 0) and refunds (flag 1); totalSales and totalRefunds are the
sums of finalAmount over the two groups, netRevenue is exactly their
difference, and when every flag is 0 or 1 the two groups partition the
input. -/
theorem c1_summarize_partition :
    ∀ txs : List Transaction,
      (calculateStats txs).totalSales =
        ((txs.filter (fun t => t.isRefund = 0)).map
          Transaction.finalAmount).sum ∧
      (calculateStats txs).totalRefunds =
        ((txs.filter (fun t => t.isRefund = 1)).map
          Transaction.finalAmount).sum ∧
      (calculateStats txs).netRevenue =
        (calculateStats txs).totalSales - (calculateStats txs).totalRefunds ∧
      ((∀ t ∈ txs, t.isRefund = 0 ∨ t.isRefund = 1) →
        (txs.filter (fun t => t.isRefund = 0)).length +
          (txs.filter (fun t => t.isRefund = 1)).length = txs.length ∧
        ∀ t ∈ txs, t ∈ txs.filter (fun t => t.isRefund = 0) ∨
          t ∈ txs.filter (fun t => t.isRefund = 1)) := by
  intro txs
  refine ⟨rfl, rfl, rfl, fun h => ⟨refund_partition_length txs h, ?_⟩⟩
  intro t ht
  rcases h t ht with h0 | h1
  · exact Or.inl (List.mem_filter.mpr ⟨ht, by simp [h0]⟩)
  · exact Or.inr (List.mem_filter.mpr ⟨ht, by simp [h1]⟩)

/-- Witness for C1 at the worked two-transaction example. -/
theorem c1_summarize_partition_witness :
    (calculateStats exTxs).totalSales =
      ((exTxs.filter (fun t => t.isRefund = 0)).map
        Transaction.finalAmount).sum ∧
    (calculateStats exTxs).totalRefunds =
      ((exTxs.filter (fun t => t.isRefund = 1)).map
        Transaction.finalAmount).sum ∧
    (calculateStats exTxs).netRevenue =
      (calculateStats exTxs).totalSales - (calculateStats exTxs).totalRefunds ∧
    (exTxs.filter (fun t => t.isRefund = 0)).length +
      (exTxs.filter (fun t => t.isRefund = 1)).length = exTxs.length := by
  have h := c1_summarize_partition exTxs
  exact ⟨h.1, h.2.1, h.2.2.1, (h.2.2.2 (by decide)).1⟩

/-- C5: averageTransaction is netRevenue divided by the number of
transactions when there are any, is 0 on the empty input, and is 15/2
(that is 7.5) on the worked example of a 25 sale plus a 10 refund. -/
theorem c5_average_transaction :
    (∀ txs : List Transaction, txs ≠ [] →
      (calculateStats txs).averageTransaction =
        (calculateStats txs).netRevenue / (txs.length : ℚ)) ∧
    (calculateStats []).averageTransaction = 0 ∧
    (calculateStats exTxs).averageTransaction = 15 / 2 := by
  refine ⟨?_, rfl, ?_⟩
  · intro txs h
    have hpos : 0 < txs.length := List.length_pos.mpr h
    simp [calculateStats, hpos]
  · norm_num [calculateStats, groupBy, groupAcc, topKey, sortDesc, insDesc,
      exTxs, mkTx]

/-- Witness for C5 at the worked example. -/
theorem c5_average_transaction_witness :
    (calculateStats exTxs).averageTransaction =
      (calculateStats exTxs).netRevenue / (exTxs.length : ℚ) :=
  c5_average_transaction.1 exTxs (by decide)

/-- C6: the loadTransactions filter step is a sublist of its input, keeps a
record exactly when each of the two criteria is the string all or matches,
and with both criteria the string all it returns the input unchanged. -/
theorem c6_filter_narrowing :
    ∀ (txs : List Transaction) (mt pm : String),
      (filterTransactions mt pm txs).Sublist txs ∧
      filterTransactions mt pm txs =
        txs.filter (fun t =>
          (mt = "all" ∨ t.membershipType = mt) ∧
          (pm = "all" ∨ t.paymentMethod = pm)) ∧
      filterTransactions "all" "all" txs = txs := by
  intro txs mt pm
  have heq : filterTransactions mt pm txs =
      txs.filter (fun t =>
        (mt = "all" ∨ t.membershipType = mt) ∧
        (pm = "all" ∨ t.paymentMethod = pm)) := by
    by_cases hmt : mt = "all" <;> by_cases hpm : pm = "all"
    · simp [filterTransactions, hmt, hpm]
    · simp [filterTransactions, hmt, hpm]
    · simp [filterTransactions, hmt, hpm]
    · have hstep : filterTransactions mt pm txs =
          (txs.filter (fun t => t.membershipType = mt)).filter
            (fun t => t.paymentMethod = pm) := by
        simp [filterTransactions, hmt, hpm]
      rw [hstep, List.filter_filter]
      apply List.filter_congr
      intro t _
      by_cases h1 : t.membershipType = mt <;>
        by_cases h2 : t.paymentMethod = pm <;> simp [h1, h2, hmt, hpm]
  refine ⟨?_, heq, ?_⟩
  · rw [heq]
    exact List.filter_sublist txs
  · simp [filterTransactions]

/-- C8: exporting an empty record sequence yields the no-data signal and no
table; a non-empty sequence yields a header row of the first record field
names plus exactly one row per record, and a string cell is wrapped in
double quotes exactly when it contains the comma delimiter. -/
theorem c8_export_rows :
    exportToCSV [] = none ∧
    (∀ (d : List (String × Value)) (ds : List (List (String × Value))),
      ∃ hdr rows, exportToCSV (d :: ds) = some (hdr, rows) ∧
        hdr = String.intercalate "," (d.map Prod.fst) ∧
        rows.length = (d :: ds).length ∧
        rows = (d :: ds).map (fun row =>
          String.intercalate "," (row.map (fun p => renderValue p.2)))) ∧
    (∀ s : String, s.data.contains ',' = true →
      renderValue (Value.str s) = "\x22" ++ s ++ "\x22") ∧
    (∀ s : String, s.data.contains ',' = false →
      renderValue (Value.str s) = s) := by
  refine ⟨rfl, ?_, ?_, ?_⟩
  · intro d ds
    exact ⟨_, _, rfl, rfl, by simp, rfl⟩
  · intro s hs
    have hmem : ',' ∈ s.data := by simpa using hs
    simp [renderValue, hmem]
  · intro s hs
    have hmem : ',' ∉ s.data := by simpa using hs
    simp [renderValue, hmem]

/-- Witness for C8: the quoting rule evaluated at concrete strings with and
without the delimiter. -/
theorem c8_export_rows_witness :
    renderValue (Value.str "a,b") = "\x22" ++ "a,b" ++ "\x22" ∧
    renderValue (Value.str "ab") = "ab" :=
  ⟨c8_export_rows.2.2.1 "a,b" (by decide),
   c8_export_rows.2.2.2 "ab" (by decide)⟩

/-- C10: on an empty transaction sequence, calculateStats returns the
literal string None for both the top membership type and the top payment
method. -/
theorem c10_empty_tops_are_none :
    (calculateStats []).topMembershipType = "None" ∧
    (calculateStats []).topPaymentMethod = "None" :=
  ⟨rfl, rfl⟩

/-- C2: for startDate ≤ endDate (and parseable payloads, see C3) the build
yields exactly endDate - startDate + 1 daily reports, ordered most recent
day first, and a day with no matching transactions and no check-ins
contributes the all-zero report with empty item and payment lists. -/
theorem c2_daily_reports_shape :
    ∀ (txs : List Transaction) (cks : List CheckIn) (s e : ℕ), s ≤ e →
      (∀ t ∈ txs, (parsePayload t.items).isSome) →
      ∃ reports, buildDailyReports txs cks s e = some reports ∧
        reports.length = e - s + 1 ∧
        reports.map DailyReport.date = (List.range' s (e - s + 1)).reverse ∧
        (∀ d, s ≤ d → d ≤ e →
          txs.filter (fun t => t.transactionDate = d) = [] →
          cks.filter (fun c => c.checkInTime = d) = [] →
          zeroReport d ∈ reports) := by
  intro txs cks s e hse hparse
  have hn : e + 1 - s = e - s + 1 := by omega
  have hall : ∀ d ∈ List.range' s (e + 1 - s),
      ((fun d => dayReport d (txs.filter (fun t => t.transactionDate = d))
        ((cks.filter (fun c => c.checkInTime = d)).length)) d).isSome := by
    intro d _
    exact dayReport_isSome (fun t ht => hparse t (List.mem_filter.mp ht).1)
  obtain ⟨ys, hys⟩ := Option.isSome_iff_exists.mp (collectSome_isSome hall)
  refine ⟨ys.reverse, ?_, ?_, ?_, ?_⟩
  · rw [buildDailyReports, hys]
    rfl
  · rw [List.length_reverse, collectSome_length hys, List.length_range', hn]
  · have hmap : ys.map DailyReport.date = List.range' s (e + 1 - s) := by
      have hcm := collectSome_map DailyReport.date id
        (fun d r hdr => dayReport_date hdr) hys
      rw [hcm, List.map_id]
    rw [List.map_reverse, hmap, hn]
  · intro d hd1 hd2 htx hck
    have hdmem : d ∈ List.range' s (e + 1 - s) :=
      List.mem_range'_1.mpr ⟨hd1, by omega⟩
    have hfd : dayReport d (txs.filter (fun t => t.transactionDate = d))
        ((cks.filter (fun c => c.checkInTime = d)).length) =
          some (zeroReport d) := by
      rw [htx, hck]
      exact dayReport_empty d
    exact List.mem_reverse.mpr (collectSome_mem hys hdmem hfd)

/-- Witness for C2 over the three-day range 0..2 with no data at all. -/
theorem c2_daily_reports_shape_witness :
    ∃ reports, buildDailyReports [] [] 0 2 = some reports ∧
      reports.length = 2 - 0 + 1 ∧
      reports.map DailyReport.date = (List.range' 0 (2 - 0 + 1)).reverse ∧
      (∀ d, 0 ≤ d → d ≤ 2 →
        ([] : List Transaction).filter (fun t => t.transactionDate = d) = [] →
        ([] : List CheckIn).filter (fun c => c.checkInTime = d) = [] →
        zeroReport d ∈ reports) :=
  c2_daily_reports_shape [] [] 0 2 (by omega)
    (fun t ht => absurd ht (List.not_mem_nil t))

/-- Counterexample for C3: a single sale with an unparseable item payload
makes the whole daily-report build abort with no result, instead of being
treated as an empty item list. -/
theorem c3_malformed_counterexample :
    buildDailyReports [malformedTx] [] 0 0 = none := by
  decide

/-- C3 as amended: a missing or empty item payload is treated as the empty
item list, but an unparseable payload of an in-range sale aborts the whole
daily-report build (the try/catch around the loop catches the exception and
no reports are produced); when every payload parses the build succeeds. -/
theorem c3_malformed_aborts :
    parsePayload Payload.empty = some [] ∧
    (∀ (txs : List Transaction) (cks : List CheckIn) (s e : ℕ),
      (∃ t ∈ txs, t.isRefund = 0 ∧ s ≤ t.transactionDate ∧
        t.transactionDate ≤ e ∧ t.items = Payload.malformed) →
      buildDailyReports txs cks s e = none) ∧
    (∀ (txs : List Transaction) (cks : List CheckIn) (s e : ℕ),
      (∀ t ∈ txs, (parsePayload t.items).isSome) →
      (buildDailyReports txs cks s e).isSome) := by
  refine ⟨rfl, ?_, ?_⟩
  · rintro txs cks s e ⟨t, ht, hsale, hs, he, hmal⟩
    have hd : t.transactionDate ∈ List.range' s (e + 1 - s) :=
      List.mem_range'_1.mpr ⟨hs, by omega⟩
    refine buildDailyReports_none hd (dayReport_none ?_)
    have hmemsales : t ∈
        (txs.filter (fun a => a.transactionDate = t.transactionDate)).filter
          (fun a => a.isRefund = 0) :=
      List.mem_filter.mpr
        ⟨List.mem_filter.mpr ⟨ht, by simp⟩, by simp [hsale]⟩
    exact collectSome_none hmemsales (by rw [hmal]; rfl)
  · intro txs cks s e hparse
    have hall : ∀ d ∈ List.range' s (e + 1 - s),
        ((fun d => dayReport d (txs.filter (fun t => t.transactionDate = d))
          ((cks.filter (fun c => c.checkInTime = d)).length)) d).isSome := by
      intro d _
      exact dayReport_isSome (fun t ht => hparse t (List.mem_filter.mp ht).1)
    obtain ⟨ys, hys⟩ := Option.isSome_iff_exists.mp (collectSome_isSome hall)
    rw [buildDailyReports, hys]
    rfl

/-- C9: in every produced daily report, the paymentMethods entries group
ALL of the day transactions (sales and refunds) by payment method, their
counts sum to the day transaction count, and they are sorted descending by
summed amount. -/
theorem c9_payment_methods_invariant :
    ∀ (txs : List Transaction) (cks : List CheckIn) (s e : ℕ)
      (reports : List DailyReport),
      buildDailyReports txs cks s e = some reports →
      ∀ r ∈ reports,
        (r.paymentMethods.map PayEntry.count).sum = r.transactionCount ∧
        List.Pairwise (fun a b => b.amount ≤ a.amount) r.paymentMethods ∧
        ∃ d, s ≤ d ∧ d ≤ e ∧
          r.transactionCount =
            (txs.filter (fun t => t.transactionDate = d)).length ∧
          ∀ pe ∈ r.paymentMethods,
            pe.amount = (((txs.filter (fun t => t.transactionDate = d)).filter
              (fun t => t.paymentMethod = pe.method)).map
                Transaction.finalAmount).sum ∧
            pe.count = ((txs.filter (fun t => t.transactionDate = d)).filter
              (fun t => t.paymentMethod = pe.method)).length := by
  intro txs cks s e reports hbuild r hr
  obtain ⟨d, hds, hde, hday⟩ :=
    buildDailyReports_report_day hbuild r hr
  obtain ⟨salesItems, _, _, hcount, _, hpm⟩ := dayReport_eq_some hday
  refine ⟨?_, ?_, d, hds, hde, hcount, ?_⟩
  · rw [hpm, hcount]
    have hperm := List.Perm.map PayEntry.count
      (sortDesc_perm PayEntry.amount
        ((groupBy (fun t => t.paymentMethod)
          (fun t => ((t.finalAmount, 1) : ℚ × ℕ))
          (txs.filter (fun t => t.transactionDate = d))).map
            (fun e => PayEntry.mk e.1 e.2.1 e.2.2)))
    rw [hperm.sum_eq, List.map_map]
    exact groupBy_pair_count_sum (fun t : Transaction => t.paymentMethod)
      (fun t : Transaction => t.finalAmount) _
  · rw [hpm]
    exact sortDesc_sorted PayEntry.amount _
  · intro pe hpe
    rw [hpm] at hpe
    have hpe2 : pe ∈ (groupBy (fun t => t.paymentMethod)
        (fun t => ((t.finalAmount, 1) : ℚ × ℕ))
        (txs.filter (fun t => t.transactionDate = d))).map
          (fun e => PayEntry.mk e.1 e.2.1 e.2.2) :=
      ((sortDesc_perm PayEntry.amount _).mem_iff).mp hpe
    obtain ⟨ge, hge, rfl⟩ := List.mem_map.mp hpe2
    have hsum := groupBy_sums
      (fun t => t.paymentMethod)
      (fun t => ((t.finalAmount, 1) : ℚ × ℕ))
      (txs.filter (fun t => t.transactionDate = d)) ge hge
    rw [keySum] at hsum
    constructor
    · show ge.2.1 = _
      rw [congrArg Prod.fst hsum, pairSum_fst, List.map_map]
      rfl
    · show ge.2.2 = _
      rw [congrArg Prod.snd hsum, pairSum_snd, List.map_map]
      show (List.map (fun _ => 1) _).sum = _
      rw [sum_map_one]

/-- Witness for C9 at the concrete two-transaction day. -/
theorem c9_payment_methods_invariant_witness :
    (payReport.paymentMethods.map PayEntry.count).sum =
      payReport.transactionCount ∧
    List.Pairwise (fun a b => b.amount ≤ a.amount)
      payReport.paymentMethods ∧
    ∃ d, 0 ≤ d ∧ d ≤ 0 ∧
      payReport.transactionCount =
        (payTxs.filter (fun t => t.transactionDate = d)).length ∧
      ∀ pe ∈ payReport.paymentMethods,
        pe.amount = (((payTxs.filter (fun t => t.transactionDate = d)).filter
          (fun t => t.paymentMethod = pe.method)).map
            Transaction.finalAmount).sum ∧
        pe.count = ((payTxs.filter (fun t => t.transactionDate = d)).filter
          (fun t => t.paymentMethod = pe.method)).length := by
  have hbuild : buildDailyReports payTxs [] 0 0 = some [payReport] := by
    simp [buildDailyReports, dayReport, collectSome, parsePayload,
      groupBy, groupAcc, sortDesc, insDesc, payTxs, mkTx, List.range']
    norm_num [payReport]
  exact c9_payment_methods_invariant payTxs [] 0 0 [payReport] hbuild
    payReport (List.mem_singleton.mpr rfl)

/-- C4: in every produced daily report, topItems has at most 5 entries,
is sorted non-increasing by revenue, and each entry carries the total
quantity and total price-times-quantity revenue of its item name over the
item lines of that day sale transactions only; the stable sort keeps ties
in first-encountered order, and the worked two-Beer example yields exactly
one entry with quantity 3 and revenue 24. -/
theorem c4_top_items :
    (∀ (txs : List Transaction) (cks : List CheckIn) (s e : ℕ)
      (reports : List DailyReport),
      buildDailyReports txs cks s e = some reports →
      ∀ r ∈ reports,
        r.topItems.length ≤ 5 ∧
        List.Pairwise (fun a b => b.revenue ≤ a.revenue) r.topItems ∧
        ∃ d salesItems,
          collectSome (fun t => parsePayload t.items)
            ((txs.filter (fun t => t.transactionDate = d)).filter
              (fun t => t.isRefund = 0)) = some salesItems ∧
          ∀ ti ∈ r.topItems,
            ti.quantity = ((salesItems.flatten.filter
              (fun l => l.name = ti.item)).map Item.quantity).sum ∧
            ti.revenue = ((salesItems.flatten.filter
              (fun l => l.name = ti.item)).map
                (fun l => l.price * l.quantity)).sum) ∧
    (∀ (l : List TopItem) (v : ℚ),
      (sortDesc TopItem.revenue l).filter (fun a => a.revenue = v) =
        l.filter (fun a => a.revenue = v)) ∧
    (buildDailyReports beerTxs [] 0 0).map
      (fun rs => rs.map DailyReport.topItems) =
        some [[TopItem.mk "Beer" 3 24]] := by
  refine ⟨?_, ?_, ?_⟩
  · intro txs cks s e reports hbuild r hr
    obtain ⟨d, _, _, hday⟩ := buildDailyReports_report_day hbuild r hr
    obtain ⟨salesItems, hsi, _, _, hti, _⟩ := dayReport_eq_some hday
    refine ⟨?_, ?_, d, salesItems, hsi, ?_⟩
    · rw [hti, List.length_take]
      exact min_le_left _ _
    · rw [hti]
      exact List.Pairwise.sublist (List.take_sublist _ _)
        (sortDesc_sorted TopItem.revenue _)
    · intro ti hmemti
      rw [hti] at hmemti
      have hmem2 : ti ∈ sortDesc TopItem.revenue
          ((groupBy (fun l => l.name)
            (fun l => ((l.quantity, l.price * l.quantity) : ℚ × ℚ))
            salesItems.flatten).map
              (fun e => TopItem.mk e.1 e.2.1 e.2.2)) :=
        List.take_subset _ _ hmemti
      have hmem3 : ti ∈ (groupBy (fun l => l.name)
          (fun l => ((l.quantity, l.price * l.quantity) : ℚ × ℚ))
          salesItems.flatten).map
            (fun e => TopItem.mk e.1 e.2.1 e.2.2) :=
        ((sortDesc_perm TopItem.revenue _).mem_iff).mp hmem2
      obtain ⟨ge, hge, rfl⟩ := List.mem_map.mp hmem3
      have hsum := groupBy_sums
        (fun l => l.name)
        (fun l => ((l.quantity, l.price * l.quantity) : ℚ × ℚ))
        salesItems.flatten ge hge
      rw [keySum] at hsum
      constructor
      · show ge.2.1 = _
        rw [congrArg Prod.fst hsum, pairSum_fst, List.map_map]
        rfl
      · show ge.2.2 = _
        rw [congrArg Prod.snd hsum, pairSum_snd, List.map_map]
        rfl
  · intro l v
    exact sortDesc_filter_stable TopItem.revenue v l
  · simp [buildDailyReports, dayReport, collectSome, parsePayload,
      groupBy, groupAcc, sortDesc, insDesc, beerTxs, mkTx, List.range']
    norm_num

/-- Witness for C4 at the worked Beer example. -/
theorem c4_top_items_witness :
    beerReport.topItems.length ≤ 5 ∧
    List.Pairwise (fun a b => b.revenue ≤ a.revenue) beerReport.topItems ∧
    ∃ d salesItems,
      collectSome (fun t => parsePayload t.items)
        ((beerTxs.filter (fun t => t.transactionDate = d)).filter
          (fun t => t.isRefund = 0)) = some salesItems ∧
      ∀ ti ∈ beerReport.topItems,
        ti.quantity = ((salesItems.flatten.filter
          (fun l => l.name = ti.item)).map Item.quantity).sum ∧
        ti.revenue = ((salesItems.flatten.filter
          (fun l => l.name = ti.item)).map
            (fun l => l.price * l.quantity)).sum := by
  have hbuild : buildDailyReports beerTxs [] 0 0 = some [beerReport] := by
    simp [buildDailyReports, dayReport, collectSome, parsePayload,
      groupBy, groupAcc, sortDesc, insDesc, beerTxs, mkTx, List.range']
    norm_num [beerReport]
  exact c4_top_items.1 beerTxs [] 0 0 [beerReport] hbuild beerReport
    (List.mem_singleton.mpr rfl)

/-- Counterexample for C7: on a single transaction whose membershipType is
the empty string, the winning key (the only key, with summed amount 5) is
the empty string, yet calculateStats returns the literal string None, not
that key: the falsy-string fallback of sorted-entries[0]?.[0] OR-ELSE None
kicks in. -/
theorem c7_empty_key_counterexample :
    emptyKeyTx.membershipType = "" ∧
    groupBy (fun t => t.membershipType) (fun t => t.finalAmount)
      [emptyKeyTx] = [("", 5)] ∧
    (calculateStats [emptyKeyTx]).topMembershipType = "None" ∧
    ("None" : String) ≠ "" :=
  ⟨rfl, rfl, rfl, by decide⟩

/-- C7 as amended: for a non-empty transaction sequence the top membership
type and top payment method are the first-encountered key of maximal
summed finalAmount (sales and refunds added with positive sign), except
that a winning key equal to the empty string is reported as the literal
string None. -/
theorem c7_top_keys_amended :
    ∀ txs : List Transaction, txs ≠ [] →
      ∃ km kp : String × ℚ,
        firstMax (fun e => e.2)
          (groupBy (fun t => t.membershipType)
            (fun t => t.finalAmount) txs) = some km ∧
        firstMax (fun e => e.2)
          (groupBy (fun t => t.paymentMethod)
            (fun t => t.finalAmount) txs) = some kp ∧
        (∀ e ∈ groupBy (fun t => t.membershipType)
            (fun t => t.finalAmount) txs,
          e.2 = keySum (fun t => t.membershipType)
            (fun t => t.finalAmount) e.1 txs ∧ e.2 ≤ km.2) ∧
        (∀ e ∈ groupBy (fun t => t.paymentMethod)
            (fun t => t.finalAmount) txs,
          e.2 = keySum (fun t => t.paymentMethod)
            (fun t => t.finalAmount) e.1 txs ∧ e.2 ≤ kp.2) ∧
        (calculateStats txs).topMembershipType =
          (if km.1 = "" then "None" else km.1) ∧
        (calculateStats txs).topPaymentMethod =
          (if kp.1 = "" then "None" else kp.1) := by
  intro txs hne
  have hGne : ∀ key : Transaction → String,
      groupBy key (fun t => t.finalAmount) txs ≠ [] := by
    intro key hc
    have hk := groupBy_keys key
      (fun t : Transaction => t.finalAmount) txs
    rw [hc] at hk
    have hmapne : txs.map key ≠ [] := by
      intro hc2
      exact hne (List.map_eq_nil_iff.mp hc2)
    exact dedupKeys_ne_nil hmapne hk.symm
  obtain ⟨km, hkm, hkmax, hktop⟩ :=
    topKey_firstMax _ (hGne (fun t => t.membershipType))
  obtain ⟨kp, hkp, hpmax, hptop⟩ :=
    topKey_firstMax _ (hGne (fun t => t.paymentMethod))
  refine ⟨km, kp, hkm, hkp, ?_, ?_, hktop, hptop⟩
  · intro e he
    exact ⟨groupBy_sums _ _ txs e he, hkmax e he⟩
  · intro e he
    exact ⟨groupBy_sums _ _ txs e he, hpmax e he⟩

/-- Witness for C7 as amended, at the worked two-transaction example. -/
theorem c7_top_keys_amended_witness :
    ∃ km kp : String × ℚ,
      firstMax (fun e => e.2)
        (groupBy (fun t => t.membershipType)
          (fun t => t.finalAmount) exTxs) = some km ∧
      firstMax (fun e => e.2)
        (groupBy (fun t => t.paymentMethod)
          (fun t => t.finalAmount) exTxs) = some kp ∧
      (∀ e ∈ groupBy (fun t => t.membershipType)
          (fun t => t.finalAmount) exTxs,
        e.2 = keySum (fun t => t.membershipType)
          (fun t => t.finalAmount) e.1 exTxs ∧ e.2 ≤ km.2) ∧
      (∀ e ∈ groupBy (fun t => t.paymentMethod)
          (fun t => t.finalAmount) exTxs,
        e.2 = keySum (fun t => t.paymentMethod)
          (fun t => t.finalAmount) e.1 exTxs ∧ e.2 ≤ kp.2) ∧
      (calculateStats exTxs).topMembershipType =
        (if km.1 = "" then "None" else km.1) ∧
      (calculateStats exTxs).topPaymentMethod =
        (if kp.1 = "" then "None" else kp.1) :=
  c7_top_keys_amended exTxs (by decide)

/-- Witness for C3 as amended: the abort at the concrete malformed input
and the success on parseable input. -/
theorem c3_malformed_aborts_witness :
    buildDailyReports [mkTx "Gold" "cash" 5 0 0 Payload.malformed] [] 0 0 =
      none ∧
    (buildDailyReports [] [] 0 1).isSome :=
  ⟨c3_malformed_aborts.2.1 [mkTx "Gold" "cash" 5 0 0 Payload.malformed]
      [] 0 0 ⟨mkTx "Gold" "cash" 5 0 0 Payload.malformed, by decide⟩,
   c3_malformed_aborts.2.2 [] [] 0 1
      (fun t ht => absurd ht (List.not_mem_nil t))⟩

end NightclubReports
